import Mathlib

/-!
Formal model of the trail-discovery matching core of `discover_skiløyper.py`:
great-circle polyline length (haversine), proportional segmentation of a
trail into target-length slices, buffered visitation testing of each slice
against a recorded track, and aggregation into discovery statistics.

Machine floating-point arithmetic is embedded as real arithmetic.  Calls
into the external geometry library (the `LineString` constructor,
`substring`, `buffer`/`contains`) are modelled from the specification, each
with a doc comment saying so.
-/

open Classical

namespace Discover

/-- A geographic position `(longitude, latitude)` in decimal degrees. -/
abbrev Pos := ℝ × ℝ

/-- Two-argument arctangent: `atan2 y x` is the argument of the complex
number `x + y*i`, matching `math.atan2` (in particular `atan2 0 0 = 0`). -/
noncomputable def atan2 (y x : ℝ) : ℝ :=
  Complex.arg ⟨x, y⟩

/-- The inner helper `haversine` of `beregn_linje_lengde` (source lines
50-60): great-circle distance in meters between two lon/lat positions,
with Earth radius 6371000 m; angles are converted to radians via
`math.radians`, i.e. multiplication by `π / 180`. -/
noncomputable def haversine (lon1 lat1 lon2 lat2 : ℝ) : ℝ :=
  let R : ℝ := 6371000
  let phi1 := lat1 * (Real.pi / 180)
  let phi2 := lat2 * (Real.pi / 180)
  let delta_phi := (lat2 - lat1) * (Real.pi / 180)
  let delta_lambda := (lon2 - lon1) * (Real.pi / 180)
  let a := Real.sin (delta_phi / 2) ^ 2 +
    Real.cos phi1 * Real.cos phi2 * Real.sin (delta_lambda / 2) ^ 2
  let c := 2 * atan2 (Real.sqrt a) (Real.sqrt (1 - a))
  R * c

/-- `beregn_linje_lengde` (source lines 45-69): the length of a polyline in
meters, i.e. the sum of `haversine` over consecutive coordinate pairs;
`0` for fewer than two coordinates. -/
noncomputable def beregn_linje_lengde : List Pos → ℝ
  | [] => 0
  | [_] => 0
  | p :: q :: rest => haversine p.1 p.2 q.1 q.2 + beregn_linje_lengde (q :: rest)

/-- Python's `int()` applied to a real number: truncation toward zero. -/
noncomputable def py_int (x : ℝ) : ℤ :=
  if 0 ≤ x then ⌊x⌋ else ⌈x⌉

/-- Modelled from the spec: linear interpolation `t` meters along the
segment from `p` toward `q` (helper for cutting a polyline at an
arc-length position). -/
noncomputable def interpPoint (p q : Pos) (t : ℝ) : Pos :=
  let d := haversine p.1 p.2 q.1 q.2
  if d = 0 then p
  else (p.1 + t / d * (q.1 - p.1), p.2 + t / d * (q.2 - p.2))

/-- Modelled from the spec: the point of a polyline at arc-length distance
`d` from its start (the last point once `d` exceeds the remaining length). -/
noncomputable def locate : List Pos → ℝ → Pos
  | [], _ => (0, 0)
  | [p], _ => p
  | p :: q :: rest, d =>
    let seg := haversine p.1 p.2 q.1 q.2
    if d ≤ seg then interpPoint p q d else locate (q :: rest) (d - seg)

/-- Modelled from the spec: the vertices of the polyline whose arc-length
position lies strictly between distances `d1` and `d2` from the start. -/
noncomputable def verticesBetween : List Pos → ℝ → ℝ → List Pos
  | [], _, _ => []
  | [_], _, _ => []
  | p :: q :: rest, d1, d2 =>
    let seg := haversine p.1 p.2 q.1 q.2
    (if d1 < seg ∧ seg < d2 then [q] else []) ++
      verticesBetween (q :: rest) (d1 - seg) (d2 - seg)

/-- Modelled from the spec: the portion of the polyline lying between
fractions `s` and `e` of its total arc length (interpolated endpoints plus
the interior vertices in between); empty for an empty polyline. -/
noncomputable def subpathPoints (P : List Pos) (s e : ℝ) : List Pos :=
  match P with
  | [] => []
  | _ =>
    let L := beregn_linje_lengde P
    locate P (s * L) :: (verticesBetween P (s * L) (e * L) ++ [locate P (e * L)])

/-- Modelled from the spec: `subpath` (the library slice operation invoked
as `substring(linestring, start_frac, end_frac, normalized=True)`): fails
when `e < s` or either fraction lies outside `[0, 1]`, otherwise returns
the slice between arc-length fractions `s` and `e`. -/
noncomputable def subpath (P : List Pos) (s e : ℝ) : Option (List Pos) :=
  if e < s ∨ s < 0 ∨ 1 < s ∨ e < 0 ∨ 1 < e then none
  else some (subpathPoints P s e)

/-- `segmenter_loype` (source lines 72-92): splits a polyline into
`max 1 (int (total / segment_lengde))` proportional slices, requesting the
slice between fractions `i/antall` and `(i+1)/antall` for each `i` and
dropping a slice whose `subpath` call fails (the bare `try`/`except`
around `substring`). -/
noncomputable def segmenter_loype (linestring : List Pos) (segment_lengde : ℝ) : List (List Pos) :=
  let total_lengde := beregn_linje_lengde linestring
  let antall_segmenter := (max 1 (py_int (total_lengde / segment_lengde))).toNat
  (List.range antall_segmenter).filterMap fun i : ℕ =>
    subpath linestring ((i : ℝ) / (antall_segmenter : ℝ))
      (((i : ℝ) + 1) / (antall_segmenter : ℝ))

/-- Planar Euclidean distance between two positions in degree coordinates. -/
noncomputable def planarDist (p q : Pos) : ℝ :=
  Real.sqrt ((p.1 - q.1) ^ 2 + (p.2 - q.2) ^ 2)

/-- Planar distance from point `p` to the straight segment from `a` to `b`. -/
noncomputable def planarDistPointSeg (p a b : Pos) : ℝ :=
  let dx := b.1 - a.1
  let dy := b.2 - a.2
  let l2 := dx ^ 2 + dy ^ 2
  if l2 = 0 then planarDist p a
  else
    let t := max 0 (min 1 (((p.1 - a.1) * dx + (p.2 - a.2) * dy) / l2))
    planarDist p (a.1 + t * dx, a.2 + t * dy)

/-- Planar distance from a point to a polyline: the minimum over the
polyline's straight segments (distance to the single vertex when the
polyline has one point). -/
noncomputable def distToPolyline (p : Pos) : List Pos → ℝ
  | [] => 0
  | [a] => planarDist p a
  | a :: b :: rest => min (planarDistPointSeg p a b) (distToPolyline p (b :: rest))

/-- Modelled from the spec: strict containment of point `p` in the planar
buffer polygon of radius `r` around a non-empty polyline geometry
(`segment.buffer(r)` followed by `contains(point)` in the source; the
buffer of an empty geometry contains nothing). -/
def bufferContains (seg : List Pos) (r : ℝ) (p : Pos) : Prop :=
  seg ≠ [] ∧ distToPolyline p seg < r

/-- `sjekk_segment_besokt` (source lines 95-114): converts the buffer
radius to degrees by `buffer_meter / 111000`, then scans the track points
in order, returning true at the first point strictly inside the buffer
around the segment and false when the track is exhausted. -/
def sjekk_segment_besokt (segment : List Pos) (gpx_punkter : List Pos) (buffer_meter : ℝ) : Prop :=
  match gpx_punkter with
  | [] => False
  | p :: rest =>
    bufferContains segment (buffer_meter / 111000) p ∨
      sjekk_segment_besokt segment rest buffer_meter

/-- A classified segment record as appended to `alle_segmenter`
(source lines 161-166): geometry, visited flag, length in meters, and the
originating trail's opaque property bag. -/
structure Seg (α : Type) : Type where
  geometry : List Pos
  besokt : Prop
  lengde : ℝ
  properties : α

/-- The `stats` record returned by `prosesser_loyper`
(source lines 178-182). -/
structure Stats : Type where
  total_km : ℝ
  besokt_km : ℝ
  discovery_prosent : ℝ

/-- Modelled from the spec: the external `LineString` constructor, which
accepts zero or at least two coordinates and raises on exactly one. -/
def mkLineString (coords : List Pos) : Except Unit (List Pos) :=
  if coords.length = 1 then .error () else .ok coords

/-- Total length in meters of a list of classified segments
(the accumulated `total_lengde_meter`). -/
noncomputable def totLen {α : Type} (l : List (Seg α)) : ℝ :=
  (l.map Seg.lengde).sum

/-- Visited length in meters of a list of classified segments
(the accumulated `besokt_lengde_meter`). -/
noncomputable def visLen {α : Type} (l : List (Seg α)) : ℝ :=
  (l.map fun s => if s.besokt then s.lengde else 0).sum

/-- Processing of one trail feature (source lines 144-166, per-feature
body): construct the geometry, segment it at 100 m, and classify every
slice against the track with a 50 m buffer.  An error from the geometry
constructor propagates (there is no handler around the feature loop). -/
noncomputable def prosesserTrail {α : Type} (gpx : List Pos) (t : List Pos × α) :
    Except Unit (List (Seg α)) :=
  match mkLineString t.1 with
  | .error e => .error e
  | .ok linestring =>
    .ok ((segmenter_loype linestring 100).map fun s =>
      ⟨s, sjekk_segment_besokt s gpx 50, beregn_linje_lengde s, t.2⟩)

/-- The feature loop of `prosesser_loyper` (source lines 144-166):
processes trails in order, concatenating their classified segments; an
error on any trail aborts the remainder. -/
noncomputable def prosesserAlle {α : Type} (gpx : List Pos) :
    List (List Pos × α) → Except Unit (List (Seg α))
  | [] => .ok []
  | t :: rest =>
    match prosesserTrail gpx t with
    | .error e => .error e
    | .ok s =>
      match prosesserAlle gpx rest with
      | .error e => .error e
      | .ok r => .ok (s ++ r)

/-- The matching core of `prosesser_loyper` (source lines 140-183), on
already-parsed trail and track data: classify all segments of all trails,
accumulate total and visited length, and report the stats with
`discovery_prosent = besokt / total * 100` guarded by `total > 0`. -/
noncomputable def prosesser_loyper {α : Type} (trails : List (List Pos × α))
    (gpx_punkter : List Pos) : Except Unit (List (Seg α) × Stats) :=
  match prosesserAlle gpx_punkter trails with
  | .error e => .error e
  | .ok alle =>
    .ok (alle,
      ⟨totLen alle / 1000, visLen alle / 1000,
        if 0 < totLen alle then visLen alle / totLen alle * 100 else 0⟩)

/-- The segment count computed by `segmenter_loype` for polyline `P` and
target length `t`. -/
noncomputable def antallFor (P : List Pos) (t : ℝ) : ℕ :=
  (max 1 (py_int (beregn_linje_lengde P / t))).toNat

/-- Pointwise relation between classified segments produced from the same
trail under a smaller and a larger track: identical geometry, length and
properties, and a visited flag that can only turn on. -/
def SegLe {α : Type} (a b : Seg α) : Prop :=
  a.geometry = b.geometry ∧ a.lengde = b.lengde ∧ a.properties = b.properties ∧
    (a.besokt → b.besokt)

/-! ## Basic lemmas -/

lemma atan2_sqrt_nonneg (a x : ℝ) : 0 ≤ atan2 (Real.sqrt a) x := by
  unfold atan2
  rw [Complex.arg_nonneg_iff]
  exact Real.sqrt_nonneg a

lemma haversine_nonneg (lon1 lat1 lon2 lat2 : ℝ) :
    0 ≤ haversine lon1 lat1 lon2 lat2 := by
  unfold haversine
  exact mul_nonneg (by norm_num)
    (mul_nonneg (by norm_num) (atan2_sqrt_nonneg _ _))

lemma beregn_nonneg : ∀ P : List Pos, 0 ≤ beregn_linje_lengde P
  | [] => le_refl 0
  | [_] => le_refl 0
  | _ :: q :: rest =>
    add_nonneg (haversine_nonneg _ _ _ _) (beregn_nonneg (q :: rest))

lemma beregn_eq_zip_sum : ∀ P : List Pos,
    beregn_linje_lengde P =
      ((P.zip P.tail).map fun q => haversine q.1.1 q.1.2 q.2.1 q.2.2).sum
  | [] => by simp [beregn_linje_lengde]
  | [p] => by simp [beregn_linje_lengde]
  | p :: q :: rest => by
    have ih := beregn_eq_zip_sum (q :: rest)
    simp only [beregn_linje_lengde, List.tail_cons, List.zip_cons_cons,
      List.map_cons, List.sum_cons, ih]

lemma filterMapEqMap {β γ : Type} (l : List β) (f : β → Option γ) (g : β → γ)
    (h : ∀ a ∈ l, f a = some (g a)) : l.filterMap f = l.map g := by
  induction l with
  | nil => rfl
  | cons a t ih =>
    rw [List.filterMap_cons, h a (List.mem_cons_self a t), List.map_cons,
      ih fun b hb => h b (List.mem_cons_of_mem a hb)]

lemma antallFor_pos (P : List Pos) (t : ℝ) : 1 ≤ antallFor P t :=
  Int.toNat_le_toNat (le_max_left 1 (py_int (beregn_linje_lengde P / t)))

lemma subpath_frac_eq (P : List Pos) (n i : ℕ) (hn : 1 ≤ n) (hi : i < n) :
    subpath P ((i : ℝ) / (n : ℝ)) (((i : ℝ) + 1) / (n : ℝ)) =
      some (subpathPoints P ((i : ℝ) / (n : ℝ)) (((i : ℝ) + 1) / (n : ℝ))) := by
  have hn0 : (0 : ℝ) < (n : ℝ) := by exact_mod_cast hn
  have hi1 : ((i : ℝ) + 1) ≤ (n : ℝ) := by exact_mod_cast hi
  have h1 : (i : ℝ) / n ≤ ((i : ℝ) + 1) / n := by
    gcongr
    linarith
  unfold subpath
  rw [if_neg]
  push_neg
  exact ⟨h1, div_nonneg (Nat.cast_nonneg i) hn0.le,
    (div_le_one hn0).mpr (by linarith), div_nonneg (by positivity) hn0.le,
    (div_le_one hn0).mpr hi1⟩

lemma segmenter_eq (P : List Pos) (t : ℝ) :
    segmenter_loype P t =
      (List.range (antallFor P t)).map fun i : ℕ =>
        subpathPoints P ((i : ℝ) / (antallFor P t : ℝ))
          (((i : ℝ) + 1) / (antallFor P t : ℝ)) := by
  simp only [segmenter_loype]
  exact filterMapEqMap _ _ _ fun i hi =>
    subpath_frac_eq P (antallFor P t) i (antallFor_pos P t) (List.mem_range.mp hi)

/-- Claim C7: `beregn_linje_lengde` sums the haversine great-circle
distance (Earth radius 6371000 m, embodied in `haversine`) over
consecutive position pairs; it returns 0 for a polyline with fewer than 2
positions, and its result is always nonnegative. -/
theorem C7_length_spec :
    (∀ P : List Pos,
        beregn_linje_lengde P =
          ((P.zip P.tail).map fun q => haversine q.1.1 q.1.2 q.2.1 q.2.2).sum) ∧
    (∀ P : List Pos, P.length < 2 → beregn_linje_lengde P = 0) ∧
    (∀ P : List Pos, 0 ≤ beregn_linje_lengde P) := by
  refine ⟨beregn_eq_zip_sum, ?_, beregn_nonneg⟩
  intro P hP
  match P, hP with
  | [], _ => rfl
  | [p], _ => rfl

/-- Witness for C7 at concrete inputs: the one-point polyline has length
zero. -/
theorem C7_length_spec_witness :
    ([((1 : ℝ), (2 : ℝ))] : List Pos).length < 2 ∧
      beregn_linje_lengde [((1 : ℝ), (2 : ℝ))] = 0 :=
  ⟨by norm_num, C7_length_spec.2.1 [((1 : ℝ), (2 : ℝ))] (by norm_num)⟩

/-- Claim C2: for every polyline and positive target length,
`segmenter_loype` computes `total = beregn_linje_lengde P`, sets
`count = max 1 ⌊total / target⌋`, and produces exactly the sub-polylines
sliced at arc-length fractions `i/count` to `(i+1)/count`, in order. -/
theorem C2_segmenter_spec (P : List Pos) (t : ℝ) (ht : 0 < t) :
    segmenter_loype P t =
      (List.range ((max 1 ⌊beregn_linje_lengde P / t⌋).toNat)).map fun i : ℕ =>
        subpathPoints P
          ((i : ℝ) / (((max 1 ⌊beregn_linje_lengde P / t⌋).toNat : ℕ) : ℝ))
          (((i : ℝ) + 1) / (((max 1 ⌊beregn_linje_lengde P / t⌋).toNat : ℕ) : ℝ)) := by
  have hfloor : py_int (beregn_linje_lengde P / t) = ⌊beregn_linje_lengde P / t⌋ := by
    unfold py_int
    rw [if_pos (div_nonneg (beregn_nonneg P) ht.le)]
  have hant : antallFor P t = (max 1 ⌊beregn_linje_lengde P / t⌋).toNat := by
    unfold antallFor
    rw [hfloor]
  rw [segmenter_eq, hant]

/-- Witness for C2 at a concrete input (the empty polyline, target 100 m). -/
theorem C2_segmenter_spec_witness :
    (0 : ℝ) < 100 ∧
      segmenter_loype ([] : List Pos) 100 =
        (List.range ((max 1 ⌊beregn_linje_lengde ([] : List Pos) / 100⌋).toNat)).map
          fun i : ℕ =>
            subpathPoints ([] : List Pos)
              ((i : ℝ) /
                (((max 1 ⌊beregn_linje_lengde ([] : List Pos) / 100⌋).toNat : ℕ) : ℝ))
              (((i : ℝ) + 1) /
                (((max 1 ⌊beregn_linje_lengde ([] : List Pos) / 100⌋).toNat : ℕ) : ℝ)) :=
  ⟨by norm_num, C2_segmenter_spec [] 100 (by norm_num)⟩

/-- Claim C6: for every polyline with at least two positions and every
positive target length, `segmenter_loype` returns at least one segment. -/
theorem C6_at_least_one (P : List Pos) (t : ℝ) (_h2 : 2 ≤ P.length) (_ht : 0 < t) :
    segmenter_loype P t ≠ [] := by
  have h := antallFor_pos P t
  rw [segmenter_eq]
  intro hcon
  rw [List.map_eq_nil_iff, List.range_eq_nil] at hcon
  omega

/-- Witness for C6 at a concrete input (a two-point polyline, target 100 m). -/
theorem C6_at_least_one_witness :
    2 ≤ ([((0 : ℝ), (0 : ℝ)), ((0 : ℝ), (1 : ℝ))] : List Pos).length ∧
      (0 : ℝ) < 100 ∧
      segmenter_loype [((0 : ℝ), (0 : ℝ)), ((0 : ℝ), (1 : ℝ))] 100 ≠ [] :=
  ⟨by simp, by norm_num,
    C6_at_least_one [((0 : ℝ), (0 : ℝ)), ((0 : ℝ), (1 : ℝ))] 100 (by simp) (by norm_num)⟩

lemma sjekk_iff (seg track : List Pos) (b : ℝ) :
    sjekk_segment_besokt seg track b ↔
      ∃ p ∈ track, bufferContains seg (b / 111000) p := by
  induction track with
  | nil => simp [sjekk_segment_besokt]
  | cons p rest ih => simp [sjekk_segment_besokt, ih]

lemma sjekk_nil (seg : List Pos) (b : ℝ) : ¬ sjekk_segment_besokt seg [] b := by
  simp [sjekk_segment_besokt]

lemma mem_prosesserTrail {α : Type} (gpx : List Pos) (t : List Pos × α)
    (l : List (Seg α)) (h : prosesserTrail gpx t = .ok l) :
    ∀ s ∈ l, s.besokt = sjekk_segment_besokt s.geometry gpx 50 ∧
      s.lengde = beregn_linje_lengde s.geometry := by
  unfold prosesserTrail at h
  cases hm : mkLineString t.1 with
  | error e => rw [hm] at h; cases h
  | ok ls =>
    rw [hm] at h
    cases h
    intro s hs
    obtain ⟨g, _, rfl⟩ := List.mem_map.mp hs
    exact ⟨rfl, rfl⟩

lemma mem_prosesserAlle {α : Type} (gpx : List Pos) :
    ∀ (trails : List (List Pos × α)) (segs : List (Seg α)),
      prosesserAlle gpx trails = .ok segs →
      ∀ s ∈ segs, s.besokt = sjekk_segment_besokt s.geometry gpx 50 ∧
        s.lengde = beregn_linje_lengde s.geometry := by
  intro trails
  induction trails with
  | nil =>
    intro segs h
    cases h
    intro s hs
    cases hs
  | cons t rest ih =>
    intro segs h
    unfold prosesserAlle at h
    cases h1 : prosesserTrail gpx t with
    | error e => rw [h1] at h; cases h
    | ok s0 =>
      rw [h1] at h
      cases h2 : prosesserAlle gpx rest with
      | error e => rw [h2] at h; cases h
      | ok r =>
        rw [h2] at h
        cases h
        intro s hs
        rcases List.mem_append.mp hs with hs0 | hsr
        · exact mem_prosesserTrail gpx t s0 h1 s hs0
        · exact ih r h2 s hsr

/-- Claim C1: `sjekk_segment_besokt` holds iff some track position lies
strictly inside the buffer polygon of radius `buffer_meter / 111000`
degrees around the segment's geometry; it is false for an empty track,
and consequently `prosesser_loyper` with an empty track classifies every
segment as unvisited. -/
theorem C1_visited_spec :
    (∀ (segment track : List Pos) (b : ℝ),
        sjekk_segment_besokt segment track b ↔
          ∃ p ∈ track, bufferContains segment (b / 111000) p) ∧
    (∀ (segment : List Pos) (b : ℝ), ¬ sjekk_segment_besokt segment [] b) ∧
    (∀ (α : Type) (trails : List (List Pos × α)) (segs : List (Seg α)) (stats : Stats),
        prosesser_loyper trails [] = .ok (segs, stats) → ∀ s ∈ segs, ¬ s.besokt) := by
  refine ⟨sjekk_iff, sjekk_nil, ?_⟩
  intro α trails segs stats h s hs
  unfold prosesser_loyper at h
  cases ha : prosesserAlle [] trails with
  | error e => rw [ha] at h; cases h
  | ok alle =>
    rw [ha] at h
    have hsegs : alle = segs := by
      injection h with h2
      exact congrArg Prod.fst h2
    subst hsegs
    have hb := (mem_prosesserAlle [] trails alle ha s hs).1
    rw [hb]
    exact sjekk_nil s.geometry 50

/-- Witness for C1 at a concrete input (no trails, empty track). -/
theorem C1_visited_spec_witness :
    prosesser_loyper ([] : List (List Pos × Unit)) [] = .ok ([], ⟨0, 0, 0⟩) ∧
      ∀ s ∈ ([] : List (Seg Unit)), ¬ s.besokt :=
  ⟨by simp [prosesser_loyper, prosesserAlle, totLen, visLen],
    C1_visited_spec.2.2 Unit [] [] ⟨0, 0, 0⟩
      (by simp [prosesser_loyper, prosesserAlle, totLen, visLen])⟩

lemma prosesser_ok_inv {α : Type} (trails : List (List Pos × α)) (gpx : List Pos)
    (segs : List (Seg α)) (stats : Stats)
    (h : prosesser_loyper trails gpx = .ok (segs, stats)) :
    prosesserAlle gpx trails = .ok segs ∧
      stats = ⟨totLen segs / 1000, visLen segs / 1000,
        if 0 < totLen segs then visLen segs / totLen segs * 100 else 0⟩ := by
  unfold prosesser_loyper at h
  cases ha : prosesserAlle gpx trails with
  | error e => rw [ha] at h; cases h
  | ok alle =>
    rw [ha] at h
    injection h with h2
    have h3 : alle = segs := congrArg Prod.fst h2
    subst h3
    exact ⟨rfl, (congrArg Prod.snd h2).symm⟩

lemma lengde_nonneg_of_ok {α : Type} (gpx : List Pos) (trails : List (List Pos × α))
    (segs : List (Seg α)) (ha : prosesserAlle gpx trails = .ok segs) :
    ∀ s ∈ segs, 0 ≤ s.lengde := fun s hs => by
  rw [(mem_prosesserAlle gpx trails segs ha s hs).2]
  exact beregn_nonneg _

lemma totLen_nonneg {α : Type} (l : List (Seg α)) (h : ∀ s ∈ l, 0 ≤ s.lengde) :
    0 ≤ totLen l := by
  induction l with
  | nil => simp [totLen]
  | cons s t ih =>
    simp only [totLen, List.map_cons, List.sum_cons]
    have h1 : 0 ≤ s.lengde := h s (List.mem_cons_self s t)
    have h2 := ih fun x hx => h x (List.mem_cons_of_mem s hx)
    simp only [totLen] at h2
    linarith

lemma visLen_nonneg {α : Type} (l : List (Seg α)) (h : ∀ s ∈ l, 0 ≤ s.lengde) :
    0 ≤ visLen l := by
  induction l with
  | nil => simp [visLen]
  | cons s t ih =>
    simp only [visLen, List.map_cons, List.sum_cons]
    have h1 : 0 ≤ s.lengde := h s (List.mem_cons_self s t)
    have h2 := ih fun x hx => h x (List.mem_cons_of_mem s hx)
    simp only [visLen] at h2
    have h3 : (0 : ℝ) ≤ if s.besokt then s.lengde else 0 := by
      split
      · exact h1
      · exact le_refl 0
    linarith

lemma visLen_le_totLen {α : Type} (l : List (Seg α)) (h : ∀ s ∈ l, 0 ≤ s.lengde) :
    visLen l ≤ totLen l := by
  induction l with
  | nil => simp [visLen, totLen]
  | cons s t ih =>
    simp only [visLen, totLen, List.map_cons, List.sum_cons]
    have h1 : 0 ≤ s.lengde := h s (List.mem_cons_self s t)
    have h2 := ih fun x hx => h x (List.mem_cons_of_mem s hx)
    simp only [visLen, totLen] at h2
    have h3 : (if s.besokt then s.lengde else 0) ≤ s.lengde := by
      split
      · exact le_refl _
      · exact h1
    linarith

/-- Claim C3: after processing all trails, the reported discovery value is
the ratio `visited / total` (expressed as a percentage, the source's
`discovery_prosent`) when the total length is positive, and `0` when the
total length is zero — the guard `0 < total` means the division is never
performed on a zero total. -/
theorem C3_ratio_spec (α : Type) (trails : List (List Pos × α)) (gpx : List Pos)
    (segs : List (Seg α)) (stats : Stats)
    (h : prosesser_loyper trails gpx = .ok (segs, stats)) :
    (0 < totLen segs → stats.discovery_prosent = visLen segs / totLen segs * 100) ∧
    (totLen segs = 0 → stats.discovery_prosent = 0) := by
  obtain ⟨-, hstats⟩ := prosesser_ok_inv trails gpx segs stats h
  subst hstats
  constructor
  · intro hpos
    simp [if_pos hpos]
  · intro h0
    simp [h0]

/-- Witness for C3 at a concrete input (no trails, empty track). -/
theorem C3_ratio_spec_witness :
    prosesser_loyper ([] : List (List Pos × Unit)) [] = .ok ([], ⟨0, 0, 0⟩) ∧
    ((0 < totLen ([] : List (Seg Unit)) →
        (⟨0, 0, 0⟩ : Stats).discovery_prosent =
          visLen ([] : List (Seg Unit)) / totLen ([] : List (Seg Unit)) * 100) ∧
     (totLen ([] : List (Seg Unit)) = 0 →
        (⟨0, 0, 0⟩ : Stats).discovery_prosent = 0)) :=
  ⟨by simp [prosesser_loyper, prosesserAlle, totLen, visLen],
    C3_ratio_spec Unit [] [] [] ⟨0, 0, 0⟩
      (by simp [prosesser_loyper, prosesserAlle, totLen, visLen])⟩

/-- Claim C10: for every trail network and track, the accumulated visited
length is nonnegative and at most the accumulated total length after every
iteration of the accumulation loop (every prefix of the classified segment
list), and consequently the reported discovery percentage lies in
`[0, 100]`. -/
theorem C10_invariant (α : Type) (trails : List (List Pos × α)) (gpx : List Pos)
    (segs : List (Seg α)) (stats : Stats)
    (h : prosesser_loyper trails gpx = .ok (segs, stats)) :
    (∀ n : ℕ, 0 ≤ visLen (segs.take n) ∧ visLen (segs.take n) ≤ totLen (segs.take n)) ∧
    0 ≤ stats.discovery_prosent ∧ stats.discovery_prosent ≤ 100 := by
  obtain ⟨ha, hstats⟩ := prosesser_ok_inv trails gpx segs stats h
  have hnn := lengde_nonneg_of_ok gpx trails segs ha
  have hpre : ∀ n : ℕ, ∀ s ∈ segs.take n, 0 ≤ s.lengde :=
    fun n s hs => hnn s (List.take_subset n segs hs)
  refine ⟨fun n => ⟨visLen_nonneg _ (hpre n), visLen_le_totLen _ (hpre n)⟩, ?_, ?_⟩
  · subst hstats
    dsimp only
    split
    · rename_i hpos
      have hv := visLen_nonneg segs hnn
      exact mul_nonneg (div_nonneg hv (le_of_lt hpos)) (by norm_num)
    · exact le_refl 0
  · subst hstats
    dsimp only
    split
    · rename_i hpos
      have hle := (div_le_one hpos).mpr (visLen_le_totLen segs hnn)
      linarith
    · norm_num

/-- Witness for C10 at a concrete input (no trails, empty track). -/
theorem C10_invariant_witness :
    prosesser_loyper ([] : List (List Pos × Unit)) [] = .ok ([], ⟨0, 0, 0⟩) ∧
    ((∀ n : ℕ, 0 ≤ visLen (([] : List (Seg Unit)).take n) ∧
        visLen (([] : List (Seg Unit)).take n) ≤ totLen (([] : List (Seg Unit)).take n)) ∧
      0 ≤ (⟨0, 0, 0⟩ : Stats).discovery_prosent ∧
      (⟨0, 0, 0⟩ : Stats).discovery_prosent ≤ 100) :=
  ⟨by simp [prosesser_loyper, prosesserAlle, totLen, visLen],
    C10_invariant Unit [] [] [] ⟨0, 0, 0⟩
      (by simp [prosesser_loyper, prosesserAlle, totLen, visLen])⟩

lemma prosesserAlle_cons {α : Type} (gpx : List Pos) (t : List Pos × α)
    (rest : List (List Pos × α)) (l r : List (Seg α))
    (h1 : prosesserTrail gpx t = .ok l) (h2 : prosesserAlle gpx rest = .ok r) :
    prosesserAlle gpx (t :: rest) = .ok (l ++ r) := by
  unfold prosesserAlle
  rw [h1, h2]

lemma prosesser_eq_of_alle {α : Type} (trails : List (List Pos × α)) (gpx : List Pos)
    (alle : List (Seg α)) (h : prosesserAlle gpx trails = .ok alle) :
    prosesser_loyper trails gpx =
      .ok (alle, ⟨totLen alle / 1000, visLen alle / 1000,
        if 0 < totLen alle then visLen alle / totLen alle * 100 else 0⟩) := by
  unfold prosesser_loyper
  rw [h]

lemma segmenter_nil : segmenter_loype ([] : List Pos) 100 = [[]] := by
  have h : antallFor ([] : List Pos) 100 = 1 := by
    unfold antallFor py_int
    norm_num [beregn_linje_lengde]
  rw [segmenter_eq ([] : List Pos) 100, h]
  simp [subpathPoints]

lemma prosesserTrail_nil_geom {α : Type} (gpx : List Pos) (u : α) :
    prosesserTrail gpx (([], u) : List Pos × α) =
      .ok [⟨[], sjekk_segment_besokt [] gpx 50, 0, u⟩] := by
  norm_num [prosesserTrail, mkLineString, segmenter_nil, beregn_linje_lengde]

lemma prosesserTrail_one_geom {α : Type} (gpx : List Pos) (p : Pos) (u : α) :
    prosesserTrail gpx (([p], u) : List Pos × α) = .error () := by
  norm_num [prosesserTrail, mkLineString]

/-- Counterexample to claim C5 as stated: a trail whose geometry is a
single position is not absorbed locally — the geometry constructor fails
and the whole run aborts with an error instead of contributing zero
segments and zero length. -/
theorem C5_counterexample :
    prosesser_loyper [([((0 : ℝ), (0 : ℝ))], ())] ([] : List Pos) = .error () := by
  norm_num [prosesser_loyper, prosesserAlle, prosesserTrail, mkLineString]

/-- Claim C5 as amended: a trail whose geometry is empty is absorbed
locally, contributing a single degenerate zero-length segment and zero
length to the totals without disturbing the remaining trails' stats; but a
trail whose geometry has exactly one position aborts the whole match with
an error. -/
theorem C5_amended_spec :
    (∀ (α : Type) (u : α) (rest : List (List Pos × α)) (gpx : List Pos)
        (segs : List (Seg α)) (stats : Stats),
        prosesser_loyper rest gpx = .ok (segs, stats) →
        prosesser_loyper (([], u) :: rest) gpx =
          .ok (⟨[], sjekk_segment_besokt [] gpx 50, 0, u⟩ :: segs, stats)) ∧
    (∀ (α : Type) (u : α) (p : Pos) (rest : List (List Pos × α)) (gpx : List Pos),
        prosesser_loyper (([p], u) :: rest) gpx = .error ()) := by
  constructor
  · intro α u rest gpx segs stats h
    obtain ⟨ha, hstats⟩ := prosesser_ok_inv rest gpx segs stats h
    have hall : prosesserAlle gpx ((([], u) : List Pos × α) :: rest) =
        .ok (⟨[], sjekk_segment_besokt [] gpx 50, 0, u⟩ :: segs) :=
      prosesserAlle_cons gpx ([], u) rest _ segs (prosesserTrail_nil_geom gpx u) ha
    rw [prosesser_eq_of_alle _ gpx _ hall]
    have ht : totLen (⟨[], sjekk_segment_besokt [] gpx 50, 0, u⟩ :: segs) = totLen segs := by
      simp [totLen]
    have hv : visLen (⟨[], sjekk_segment_besokt [] gpx 50, 0, u⟩ :: segs) = visLen segs := by
      simp [visLen]
    rw [ht, hv, hstats]
  · intro α u p rest gpx
    unfold prosesser_loyper prosesserAlle
    rw [prosesserTrail_one_geom gpx p u]

/-- Witness for the amended C5 at a concrete input (an empty-geometry
trail in front of an empty network, empty track). -/
theorem C5_amended_spec_witness :
    prosesser_loyper ([] : List (List Pos × Unit)) [] = .ok ([], ⟨0, 0, 0⟩) ∧
      prosesser_loyper [(([] : List Pos), ())] [] =
        .ok ([⟨[], sjekk_segment_besokt [] [] 50, 0, ()⟩], ⟨0, 0, 0⟩) :=
  ⟨by simp [prosesser_loyper, prosesserAlle, totLen, visLen],
    C5_amended_spec.1 Unit () [] [] [] ⟨0, 0, 0⟩
      (by simp [prosesser_loyper, prosesserAlle, totLen, visLen])⟩

lemma sjekk_mono (seg : List Pos) (b : ℝ) (g extra : List Pos) :
    sjekk_segment_besokt seg g b → sjekk_segment_besokt seg (g ++ extra) b := by
  rw [sjekk_iff, sjekk_iff]
  rintro ⟨p, hp, hc⟩
  exact ⟨p, List.mem_append_left extra hp, hc⟩

lemma forall2_map_map {α β : Type} (l : List β) (f g : β → Seg α)
    (h : ∀ x ∈ l, SegLe (f x) (g x)) :
    List.Forall₂ SegLe (l.map f) (l.map g) := by
  induction l with
  | nil => exact List.Forall₂.nil
  | cons a t ih =>
    exact List.Forall₂.cons (h a (List.mem_cons_self a t))
      (ih fun x hx => h x (List.mem_cons_of_mem a hx))

lemma forall2_append {α : Type} {l1 l2 l3 l4 : List (Seg α)}
    (h1 : List.Forall₂ SegLe l1 l2) (h2 : List.Forall₂ SegLe l3 l4) :
    List.Forall₂ SegLe (l1 ++ l3) (l2 ++ l4) := by
  induction h1 with
  | nil => exact h2
  | cons h _ ih => exact List.Forall₂.cons h ih

lemma prosesserTrail_rel {α : Type} (gpx extra : List Pos) (t : List Pos × α) :
    (prosesserTrail gpx t = .error () ∧ prosesserTrail (gpx ++ extra) t = .error ()) ∨
    ∃ l1 l2, prosesserTrail gpx t = .ok l1 ∧ prosesserTrail (gpx ++ extra) t = .ok l2 ∧
      List.Forall₂ SegLe l1 l2 := by
  unfold prosesserTrail
  cases hm : mkLineString t.1 with
  | error e =>
    left
    cases e
    exact ⟨rfl, rfl⟩
  | ok ls =>
    right
    refine ⟨_, _, rfl, rfl, ?_⟩
    apply forall2_map_map
    intro s _
    exact ⟨rfl, rfl, rfl, sjekk_mono s 50 gpx extra⟩

lemma prosesserAlle_rel {α : Type} (gpx extra : List Pos) :
    ∀ trails : List (List Pos × α),
      (prosesserAlle gpx trails = .error () ∧
        prosesserAlle (gpx ++ extra) trails = .error ()) ∨
      ∃ l1 l2, prosesserAlle gpx trails = .ok l1 ∧
        prosesserAlle (gpx ++ extra) trails = .ok l2 ∧ List.Forall₂ SegLe l1 l2 := by
  intro trails
  induction trails with
  | nil => exact Or.inr ⟨[], [], rfl, rfl, List.Forall₂.nil⟩
  | cons t rest ih =>
    rcases prosesserTrail_rel gpx extra t with ⟨he1, he2⟩ | ⟨l1, l2, h1, h2, hrel⟩
    · left
      constructor
      · unfold prosesserAlle; rw [he1]
      · unfold prosesserAlle; rw [he2]
    · rcases ih with ⟨he1, he2⟩ | ⟨r1, r2, hr1, hr2, hrrel⟩
      · left
        constructor
        · unfold prosesserAlle; rw [h1, he1]
        · unfold prosesserAlle; rw [h2, he2]
      · exact Or.inr ⟨l1 ++ r1, l2 ++ r2,
          prosesserAlle_cons gpx t rest l1 r1 h1 hr1,
          prosesserAlle_cons (gpx ++ extra) t rest l2 r2 h2 hr2,
          forall2_append hrel hrrel⟩

lemma totLen_eq_of_rel {α : Type} :
    ∀ {l1 l2 : List (Seg α)}, List.Forall₂ SegLe l1 l2 → totLen l1 = totLen l2 := by
  intro l1 l2 h
  induction h with
  | nil => rfl
  | cons hab _ ih =>
    simp only [totLen, List.map_cons, List.sum_cons]
    simp only [totLen] at ih
    rw [hab.2.1, ih]

lemma visLen_le_of_rel {α : Type} :
    ∀ {l1 l2 : List (Seg α)}, List.Forall₂ SegLe l1 l2 →
      (∀ s ∈ l1, 0 ≤ s.lengde) → visLen l1 ≤ visLen l2 := by
  intro l1 l2 h
  induction h with
  | nil => exact fun _ => le_refl _
  | @cons a b t1 t2 hab _ ih =>
    intro hnn
    simp only [visLen, List.map_cons, List.sum_cons]
    have ihh := ih fun s hs => hnn s (List.mem_cons_of_mem a hs)
    simp only [visLen] at ihh
    have hhead : (if a.besokt then a.lengde else 0) ≤ if b.besokt then b.lengde else 0 := by
      by_cases hba : a.besokt
      · rw [if_pos hba, if_pos (hab.2.2.2 hba), hab.2.1]
      · rw [if_neg hba]
        split
        · rw [← hab.2.1]
          exact hnn a (List.mem_cons_self a t1)
        · exact le_refl 0
    linarith

/-- Claim C8: appending a position to the track never decreases the
reported discovery percentage; every segment visited under the original
track remains visited under the extended track, and the total length is
unchanged. -/
theorem C8_monotone (α : Type) (trails : List (List Pos × α)) (gpx : List Pos) (p : Pos)
    (segs1 segs2 : List (Seg α)) (s1 s2 : Stats)
    (h1 : prosesser_loyper trails gpx = .ok (segs1, s1))
    (h2 : prosesser_loyper trails (gpx ++ [p]) = .ok (segs2, s2)) :
    s1.discovery_prosent ≤ s2.discovery_prosent ∧ s1.total_km = s2.total_km ∧
      List.Forall₂ SegLe segs1 segs2 := by
  obtain ⟨ha1, hs1⟩ := prosesser_ok_inv trails gpx segs1 s1 h1
  obtain ⟨ha2, hs2⟩ := prosesser_ok_inv trails (gpx ++ [p]) segs2 s2 h2
  rcases prosesserAlle_rel gpx [p] trails with ⟨he1, _⟩ | ⟨l1, l2, hl1, hl2, hrel⟩
  · rw [ha1] at he1
    simp at he1
  · rw [hl1] at ha1
    injection ha1 with e1
    rw [hl2] at ha2
    injection ha2 with e2
    subst e1
    subst e2
    have hnn : ∀ s ∈ l1, 0 ≤ s.lengde := lengde_nonneg_of_ok gpx trails l1 hl1
    have htt : totLen l1 = totLen l2 := totLen_eq_of_rel hrel
    have hvv : visLen l1 ≤ visLen l2 := visLen_le_of_rel hrel hnn
    subst hs1
    subst hs2
    refine ⟨?_, ?_, hrel⟩
    · dsimp only
      rw [← htt]
      by_cases hpos : 0 < totLen l1
      · rw [if_pos hpos, if_pos hpos]
        gcongr
      · rw [if_neg hpos, if_neg hpos]
    · dsimp only
      rw [htt]

/-- Witness for C8 at a concrete input (no trails, empty track extended by
one position). -/
theorem C8_monotone_witness :
    prosesser_loyper ([] : List (List Pos × Unit)) [] = .ok ([], ⟨0, 0, 0⟩) ∧
      prosesser_loyper ([] : List (List Pos × Unit)) ([] ++ [((0 : ℝ), (0 : ℝ))]) =
        .ok ([], ⟨0, 0, 0⟩) ∧
      ((⟨0, 0, 0⟩ : Stats).discovery_prosent ≤ (⟨0, 0, 0⟩ : Stats).discovery_prosent ∧
        (⟨0, 0, 0⟩ : Stats).total_km = (⟨0, 0, 0⟩ : Stats).total_km ∧
        List.Forall₂ SegLe ([] : List (Seg Unit)) ([] : List (Seg Unit))) :=
  ⟨by simp [prosesser_loyper, prosesserAlle, totLen, visLen],
   by simp [prosesser_loyper, prosesserAlle, totLen, visLen],
   C8_monotone Unit [] [] ((0 : ℝ), (0 : ℝ)) [] [] ⟨0, 0, 0⟩ ⟨0, 0, 0⟩
     (by simp [prosesser_loyper, prosesserAlle, totLen, visLen])
     (by simp [prosesser_loyper, prosesserAlle, totLen, visLen])⟩

end Discover
